import Mathlib

/-!
Verification of the semantic-graph engine of the stldnb sitemap tooling.

The builder side embeds the `graph.json` generation of
`scripts/sitemap-to-mermaid.ts` (functions `hash8`, `safeId`, `titleFromUrl`,
`pathParts`, `groupKey`, `isExcludedUrl`, `extractMetadata`, `addNode`,
`addEdge` and the node/edge generation loops).  The extractor side embeds
`bfsUndirectedWithDepth` and `isPlaceholderNode` from the Thought-Map viewer
(`scripts/build-sitemap-viewer.ts`).

JavaScript strings are modelled as Lean `String`; all inputs considered here
are ASCII, so `charCodeAt` coincides with `Char.toNat`.  32-bit arithmetic
(`Math.imul`, `>>> 0`) is modelled with explicit `% 2 ^ 32`.
-/

set_option maxRecDepth 100000

namespace Stldnb

/-- The 32-bit FNV-1a step: `h ^= c; h = Math.imul(h, 16777619)`, kept in `[0, 2^32)`. -/
def fnvStep (h : Nat) (c : Char) : Nat :=
  ((h ^^^ c.toNat) * 16777619) % 4294967296

/-- The loop body of `hash8` from `sitemap-to-mermaid.ts`: FNV-1a over the
string's code units, starting from the offset basis 2166136261. -/
def fnv (s : String) : Nat :=
  s.data.foldl fnvStep 2166136261

/-- The function `hash8(s)`: `(h >>> 0).toString(16).slice(0, 8)`.  A 32-bit value has at
most eight lowercase hex digits, so the slice keeps the whole rendering. -/
def hash8 (s : String) : String :=
  String.mk ((Nat.toDigits 16 (fnv s)).take 8)

/-- The regex `^https?:\/\//` strip used by `safeId`. -/
def stripScheme (l : List Char) : List Char :=
  if "https://".data.isPrefixOf l then l.drop 8
  else if "http://".data.isPrefixOf l then l.drop 7
  else l

/-- Characters matching `[^a-zA-Z0-9_]` are replaced by an underscore. -/
def sanitizeChar (c : Char) : Char :=
  if c.isAlpha || c.isDigit || c == '_' then c else '_'

/-- The `.replace(/_+/g, "_")` collapse of underscore runs. -/
def collapseUnd : List Char → List Char
  | [] => []
  | [c] => [c]
  | c1 :: c2 :: rest =>
    if c1 == '_' && c2 == '_' then collapseUnd (c2 :: rest)
    else c1 :: collapseUnd (c2 :: rest)

/-- The `.replace(/^_+|_+$/g, "")` trim of leading and trailing underscores. -/
def trimUnd (l : List Char) : List Char :=
  ((l.dropWhile (· == '_')).reverse.dropWhile (· == '_')).reverse

/-- The function `safeId(s)` from `sitemap-to-mermaid.ts`: scheme-stripped, sanitized,
collapsed and trimmed body between an `n_` prefix and the `hash8` of the
original string. -/
def safeId (s : String) : String :=
  "n_" ++ String.mk (trimUnd (collapseUnd ((stripScheme s.data).map sanitizeChar)))
    ++ "_" ++ hash8 s

/-- JavaScript `String.prototype.includes` (substring containment). -/
def containsSubstr (s pat : String) : Bool :=
  go s.data
where
  go : List Char → Bool
    | [] => pat.data.isPrefixOf []
    | c :: rest => pat.data.isPrefixOf (c :: rest) || go rest

/-- The function `isExcludedUrl(u)`: an empty string is excluded; otherwise any non-empty
pattern of the exclude list matching as a substring excludes the URL. -/
def isExcludedUrl (exclude : List String) (u : String) : Bool :=
  if u == "" then true
  else exclude.any (fun pat => pat != "" && containsSubstr u pat)

/-- Host and pathname of a parsed URL. -/
structure UrlParts where
  host : String
  pathname : String
  deriving DecidableEq, Repr

/-- Modelled platform behaviour: the WHATWG `new URL(u)` constructor,
restricted to the absolute `http://` / `https://` URL shapes this repository
feeds it (an ASCII host followed by an optional path, query and fragment).
Every other string is treated as a parse failure, matching the `catch`
branches wrapped around each `new URL` call in the source. -/
def parseUrl (u : String) : Option UrlParts :=
  let l := u.data
  let afterScheme :=
    if "https://".data.isPrefixOf l then some (l.drop 8)
    else if "http://".data.isPrefixOf l then some (l.drop 7)
    else none
  match afterScheme with
  | none => none
  | some rest =>
    let hostChars := rest.takeWhile (fun c => c != '/' && c != '?' && c != '#')
    if hostChars.isEmpty then none
    else
      let afterHost := rest.drop hostChars.length
      let pathChars := afterHost.takeWhile (fun c => c != '?' && c != '#')
      some { host := String.mk hostChars
           , pathname := if pathChars.isEmpty then "/" else String.mk pathChars }

/-- JavaScript `"a/b/c".split("/")` on character lists, keeping empty segments. -/
def splitSlashAux (cur : List Char) : List Char → List (List Char)
  | [] => [cur.reverse]
  | c :: rest =>
    if c == '/' then cur.reverse :: splitSlashAux [] rest
    else splitSlashAux (c :: cur) rest

/-- The function `pathParts(u)`: pathname split on `/` with empty components removed;
`[]` when the URL does not parse. -/
def pathParts (u : String) : List String :=
  match parseUrl u with
  | some p => ((splitSlashAux [] p.pathname.data).map String.mk).filter (· != "")
  | none => []

/-- JavaScript `parts.join("/")`. -/
def joinSlash : List String → String
  | [] => ""
  | [s] => s
  | s :: rest => s ++ "/" ++ joinSlash rest

/-- The function `groupKey(u, depth)`: the first `depth` path segments joined by `/`,
or the sentinel `"(root)"` for an empty path. -/
def groupKey (u : String) (depth : Nat) : String :=
  let parts := pathParts u
  if parts.isEmpty then "(root)"
  else joinSlash (parts.take (Nat.min depth parts.length))

/-- Modelled platform behaviour: `decodeURIComponent`, restricted to `%XX`
escapes of ASCII bytes (the inputs in this development contain no multi-byte
UTF-8 escapes).  `none` models the `URIError` throw on a malformed escape. -/
def percentDecode : List Char → Option (List Char)
  | [] => some []
  | '%' :: h1 :: h2 :: rest =>
    match hexVal h1, hexVal h2 with
    | some a, some b =>
      if a * 16 + b < 128 then
        (percentDecode rest).map (Char.ofNat (a * 16 + b) :: ·)
      else none
    | _, _ => none
  | '%' :: _ => none
  | c :: rest => (percentDecode rest).map (c :: ·)
where
  hexVal (c : Char) : Option Nat :=
    if '0' ≤ c && c ≤ '9' then some (c.toNat - 48)
    else if 'a' ≤ c && c ≤ 'f' then some (c.toNat - 87)
    else if 'A' ≤ c && c ≤ 'F' then some (c.toNat - 55)
    else none

/-- The `.replace(/\/+$/, "")` strip of trailing slashes. -/
def stripTrailingSlashes (l : List Char) : List Char :=
  (l.reverse.dropWhile (· == '/')).reverse

/-- The function `titleFromUrl(u)`: last path segment, percent-decoded, hyphens replaced by
spaces; `"Home"` for an empty path; the raw string when parsing or decoding
throws. -/
def titleFromUrl (u : String) : String :=
  match parseUrl u with
  | none => u
  | some p =>
    let pathn := stripTrailingSlashes p.pathname.data
    if pathn.isEmpty then "Home"
    else
      let parts := ((splitSlashAux [] pathn).map String.mk).filter (· != "")
      let last := parts.getLast?.getD "Page"
      match percentDecode last.data with
      | some dec => String.mk (dec.map (fun c => if c == '-' then ' ' else c))
      | none => u

/-! ### `extractMetadata` -/

/-- Page metadata derived from URL patterns (`extractMetadata`). -/
structure PageMetadata where
  category : Option String
  date : Option String
  dateYear : Option String
  dateMonth : Option String
  postType : String
  postSlug : Option String
  deriving DecidableEq, Repr

/-- Leftmost match of `/\/category\/([^\/]+)\/?/`: the maximal run of
non-slash characters after the first `/category/` occurrence that is
followed by at least one non-slash character. -/
def catScan : List Char → Option (List Char)
  | [] => none
  | c :: rest =>
    if "/category/".data.isPrefixOf (c :: rest) then
      let run := ((c :: rest).drop 10).takeWhile (· != '/')
      if run.isEmpty then catScan rest else some run
    else catScan rest

/-- Attempted match of `/\/(\d{4})\/(\d{2})\/(\d{2})\//` at the head of the
list. -/
def dateAt : List Char → Option (String × String × String)
  | '/' :: y1 :: y2 :: y3 :: y4 :: '/' :: m1 :: m2 :: '/' :: d1 :: d2 :: '/' :: _ =>
    if y1.isDigit && y2.isDigit && y3.isDigit && y4.isDigit
        && m1.isDigit && m2.isDigit && d1.isDigit && d2.isDigit then
      some (String.mk [y1, y2, y3, y4], String.mk [m1, m2], String.mk [d1, d2])
    else none
  | _ => none

/-- Leftmost match of the date pattern. -/
def dateScan : List Char → Option (String × String × String)
  | [] => none
  | c :: rest =>
    match dateAt (c :: rest) with
    | some r => some r
    | none => dateScan rest

/-- Attempted match of `/\/blog\/\d{4}\/\d{2}\/\d{2}\/([^\/]+)\/?/` at the
head of the list. -/
def postAt : List Char → Option (List Char)
  | '/' :: 'b' :: 'l' :: 'o' :: 'g' :: '/' :: y1 :: y2 :: y3 :: y4 :: '/'
      :: m1 :: m2 :: '/' :: d1 :: d2 :: '/' :: rest =>
    if y1.isDigit && y2.isDigit && y3.isDigit && y4.isDigit
        && m1.isDigit && m2.isDigit && d1.isDigit && d2.isDigit then
      let run := rest.takeWhile (· != '/')
      if run.isEmpty then none else some run
    else none
  | _ => none

/-- Leftmost match of the blog-post pattern. -/
def postScan : List Char → Option (List Char)
  | [] => none
  | c :: rest =>
    match postAt (c :: rest) with
    | some r => some r
    | none => postScan rest

/-- The post-type chain of `extractMetadata`: later `includes` checks
override earlier ones. -/
def postTypeOf (url : String) : String :=
  let t := "page"
  let t := if containsSubstr url "/blog/" then "post" else t
  let t := if containsSubstr url "/product/" then "product" else t
  let t := if containsSubstr url "/events/" then "event" else t
  if containsSubstr url "/shop/" then "product" else t

/-- The function `extractMetadata(url)` from `sitemap-to-mermaid.ts`. -/
def extractMetadata (url : String) : PageMetadata :=
  let catm := catScan url.data
  let datem := dateScan url.data
  let postm := postScan url.data
  { category := catm.map (fun l => String.mk (l.map (fun c => if c == '-' then ' ' else c)))
  , date := datem.map (fun r => r.1 ++ "/" ++ r.2.1 ++ "/" ++ r.2.2)
  , dateYear := datem.map (·.1)
  , dateMonth := datem.map (·.2.1)
  , postType := postTypeOf url
  , postSlug := postm.map String.mk }

/-! ### Graph data model (`NodeData`, `EdgeData`, `Graph`) -/

/-- The `NodeKind` union of `sitemap-to-mermaid.ts`.  `sec`, `cat`, `ty` and
`assetHost` print as the source strings `"section"`, `"category"`, `"type"`
and `"asset_host"` (see `kindStr`); `section` and `category` cannot be used
verbatim as Lean constructor names. -/
inductive NodeKind where
  | site | sec | cat | date | page | image | ty | assetHost
  deriving DecidableEq, Repr

/-- The serialized `kind` string of a node, as the viewer reads it from
`graph.json`. -/
def kindStr : NodeKind → String
  | .site => "site"
  | .sec => "section"
  | .cat => "category"
  | .date => "date"
  | .page => "page"
  | .image => "image"
  | .ty => "type"
  | .assetHost => "asset_host"

/-- The `EdgeKind` union of `sitemap-to-mermaid.ts`. -/
inductive EdgeKind where
  | contains | page | member | asset | related
  deriving DecidableEq, Repr

/-- The serialized `kind` string of an edge. -/
def edgeKindStr : EdgeKind → String
  | .contains => "contains"
  | .page => "page"
  | .member => "member"
  | .asset => "asset"
  | .related => "related"

/-- Node records (`NodeData`): the optional dimension tags `section`, `category` and `date`
are the fields `sec`, `cat` and `date` here. -/
structure NodeData where
  id : String
  label : String
  kind : NodeKind
  url : Option String := none
  img : Option String := none
  sec : Option String := none
  cat : Option String := none
  date : Option String := none
  postType : Option String := none
  deriving DecidableEq, Repr

/-- Edge records (`EdgeData`). -/
structure EdgeData where
  id : String
  source : String
  target : String
  kind : EdgeKind
  deriving DecidableEq, Repr

/-- The graph: the two ordered lists written to `graph.json` (the `{ data }`
wrappers carry no information and are dropped). -/
structure Graph where
  nodes : List NodeData
  edges : List EdgeData
  deriving DecidableEq, Repr

/-! ### Graph builder -/

/-- The CLI configuration of the generator: `--max-images`, `--group-depth`
and `--exclude`. -/
structure Config where
  maxImages : Nat := 3
  groupDepth : Nat := 1
  exclude : List String := []
  deriving Repr

/-- The defaults of the `graph.json`-producing generator (exclude list empty). -/
def defaultConfig : Config := {}

/-- The exclude defaults of the variant at the end of the file:
`getList("--exclude", ["/category/", "/product-category/"])`. -/
def categoryExcludeConfig : Config :=
  { exclude := ["/category/", "/product-category/"] }

/-- One input `Entry`: a canonical URL and its image URLs. -/
structure Entry where
  loc : String
  images : List String
  deriving DecidableEq, Repr

/-- The mutable `nodes` / `edges` arrays of the generator. -/
structure BuildState where
  nodes : List NodeData
  edges : List EdgeData
  deriving DecidableEq, Repr

/-- The function `addNode(data)`: push unless a node with the same id exists. -/
def addNode (st : BuildState) (d : NodeData) : BuildState :=
  if st.nodes.any (fun n => n.id == d.id) then st
  else { st with nodes := st.nodes ++ [d] }

/-- The edge id `e_${kind}_${hash8(source)}_${hash8(target)}`. -/
def mkEdgeId (k : EdgeKind) (s t : String) : String :=
  "e_" ++ edgeKindStr k ++ "_" ++ hash8 s ++ "_" ++ hash8 t

/-- The function `addEdge(source, target, kind)`: pushed unconditionally. -/
def addEdge (st : BuildState) (s t : String) (k : EdgeKind) : BuildState :=
  { st with edges := st.edges ++ [{ id := mkEdgeId k s t, source := s, target := t, kind := k }] }

/-- The entry list after the two filters on the raw parse:
`.filter((e) => !!e.loc).filter((e) => !isExcludedUrl(e.loc))`. -/
def entriesOf (exclude : List String) (raw : List Entry) : List Entry :=
  (raw.filter (fun e => e.loc != "")).filter (fun e => !isExcludedUrl exclude e.loc)

/-- The value `siteHost`: the host of the first entry's URL, `"example.com"` when there
are no entries, `"site"` on parse failure. -/
def siteHostOf (entries : List Entry) : String :=
  match parseUrl ((entries.head?.map Entry.loc).getD "https://example.com") with
  | some p => p.host
  | none => "site"

/-- First-occurrence deduplication (JS `Set` insertion order). -/
def dedupFirst (l : List String) : List String :=
  l.foldl (fun acc k => if acc.contains k then acc else acc ++ [k]) []

/-- Lexicographic order on code points, as a Boolean on character lists. -/
def charsLt : List Char → List Char → Bool
  | [], [] => false
  | [], _ :: _ => true
  | _ :: _, [] => false
  | a :: as, b :: bs =>
    if a.toNat < b.toNat then true
    else if b.toNat < a.toNat then false
    else charsLt as bs

/-- Boolean string order; code-point lexicographic.  This agrees with the
`localeCompare` / default `Array.sort` comparisons of the source on the
ASCII keys it sorts. -/
def strLe (a b : String) : Bool := !(charsLt b.data a.data)

/-- Insertion into a sorted list. -/
def insertSorted (x : String) : List String → List String
  | [] => [x]
  | y :: ys => if strLe x y then x :: y :: ys else y :: insertSorted x ys

/-- Insertion sort for string keys. -/
def sortStr : List String → List String
  | [] => []
  | x :: xs => insertSorted x (sortStr xs)

/-- The list `sortedGroupKeys`: distinct group keys of the entries, sorted. -/
def groupKeys (groupDepth : Nat) (entries : List Entry) : List String :=
  sortStr (dedupFirst (entries.map (fun e => groupKey e.loc groupDepth)))

/-- The sorted distinct `category` metadata values of the entries. -/
def categoriesOf (entries : List Entry) : List String :=
  sortStr (dedupFirst (entries.filterMap (fun e => (extractMetadata e.loc).category)))

/-- The sorted distinct `YYYY/MM` date keys of the entries. -/
def datesOf (entries : List Entry) : List String :=
  sortStr (dedupFirst (entries.filterMap (fun e =>
    match (extractMetadata e.loc).dateYear, (extractMetadata e.loc).dateMonth with
    | some y, some m => some (y ++ "/" ++ m)
    | _, _ => none)))

/-- The sorted distinct external image hosts of the entries.  Note the
collection pass walks every image of an entry, unlike the edge pass which is
capped at `MAX_IMAGES`. -/
def assetHostsOf (siteHost : String) (entries : List Entry) : List String :=
  sortStr (dedupFirst ((entries.flatMap Entry.images).filterMap (fun img =>
    match parseUrl img with
    | some p => if p.host != siteHost then some p.host else none
    | none => none)))

/-- Step 1: the `site` root node. -/
def stepSite (siteHost : String) (st : BuildState) : BuildState :=
  addNode st { id := "site", label := siteHost, kind := .site
             , url := some ("https://" ++ siteHost) }

/-- Step 2: one `section` node per group key plus the `contains` edge. -/
def stepSections (keys : List String) (st : BuildState) : BuildState :=
  keys.foldl (fun st key =>
    addEdge (addNode st { id := "sec_" ++ safeId key, label := key, kind := .sec })
      "site" ("sec_" ++ safeId key) .contains) st

/-- Step 4a: one `type` grouping node per group key. -/
def stepTypes (keys : List String) (st : BuildState) : BuildState :=
  keys.foldl (fun st key =>
    addNode st { id := "type_" ++ safeId key, label := "type: " ++ key, kind := .ty }) st

/-- Step 4b: one `category` grouping node per distinct category. -/
def stepCats (cats : List String) (st : BuildState) : BuildState :=
  cats.foldl (fun st c =>
    addNode st { id := "cat_" ++ safeId c, label := "category: " ++ c, kind := .cat }) st

/-- Step 4c: one `date` grouping node per distinct `YYYY/MM` key. -/
def stepDates (dates : List String) (st : BuildState) : BuildState :=
  dates.foldl (fun st dk =>
    addNode st { id := "date_" ++ safeId dk, label := "date: " ++ dk, kind := .date }) st

/-- Step 4d: one `asset_host` grouping node per distinct external host. -/
def stepHosts (hosts : List String) (st : BuildState) : BuildState :=
  hosts.foldl (fun st h =>
    addNode st { id := "assethost_" ++ safeId h, label := "asset host: " ++ h, kind := .assetHost }) st

/-- The image id `imgId`: the page id with a 1-based image index suffix. -/
def imageIdOf (pageId : String) (i : Nat) : String :=
  pageId ++ "_img_" ++ toString (i + 1)

/-- The image node record of step 5. -/
def imageNodeOf (pageId secKey : String) (p : Nat × String) : NodeData :=
  { id := imageIdOf pageId p.1, label := "img " ++ toString (p.1 + 1), kind := .image
  , url := some p.2, img := some p.2, sec := some secKey }

/-- The conditional `related` edge from an external asset host to the page. -/
def hostEdgeStep (siteHost pageId img : String) (st : BuildState) : BuildState :=
  match parseUrl img with
  | some up =>
    if up.host != siteHost then addEdge st ("assethost_" ++ safeId up.host) pageId .related
    else st
  | none => st

/-- The image loop of step 5: image node, `asset` edge, and the `related`
edge to the page when the image host is external. -/
def processImage (siteHost pageId secKey : String) (st : BuildState) (p : Nat × String) : BuildState :=
  hostEdgeStep siteHost pageId p.2
    (addEdge (addNode st (imageNodeOf pageId secKey p)) pageId (imageIdOf pageId p.1) .asset)

/-- The page node record of step 5, carrying the dimension tags. -/
def pageNodeOf (cfg : Config) (e : Entry) : NodeData :=
  { id := safeId e.loc, label := titleFromUrl e.loc, kind := .page
  , url := some e.loc, sec := some (groupKey e.loc cfg.groupDepth)
  , cat := (extractMetadata e.loc).category, date := (extractMetadata e.loc).date
  , postType := some (extractMetadata e.loc).postType }

/-- The conditional `member` edge from the category group to the page. -/
def catEdgeStep (md : PageMetadata) (pageId : String) (st : BuildState) : BuildState :=
  match md.category with
  | some c => addEdge st ("cat_" ++ safeId c) pageId .member
  | none => st

/-- The conditional `member` edge from the date group to the page. -/
def dateEdgeStep (md : PageMetadata) (pageId : String) (st : BuildState) : BuildState :=
  match md.dateYear, md.dateMonth with
  | some y, some m => addEdge st ("date_" ++ safeId (y ++ "/" ++ m)) pageId .member
  | _, _ => st

/-- The per-entry body of step 5: page node, `page` edge from the section,
`member` edges from the `type` / `category` / `date` groups, then the image
loop over the first `MAX_IMAGES` images. -/
def processEntry (cfg : Config) (siteHost : String) (st : BuildState) (e : Entry) : BuildState :=
  ((e.images.take cfg.maxImages).enum).foldl
    (processImage siteHost (safeId e.loc) (groupKey e.loc cfg.groupDepth))
    (dateEdgeStep (extractMetadata e.loc) (safeId e.loc)
      (catEdgeStep (extractMetadata e.loc) (safeId e.loc)
        (addEdge
          (addEdge (addNode st (pageNodeOf cfg e))
            ("sec_" ++ safeId (groupKey e.loc cfg.groupDepth)) (safeId e.loc) .page)
          ("type_" ++ safeId (groupKey e.loc cfg.groupDepth)) (safeId e.loc) .member)))

/-- Step 5 over all entries. -/
def stepEntries (cfg : Config) (siteHost : String) (entries : List Entry) (st : BuildState) : BuildState :=
  entries.foldl (processEntry cfg siteHost) st

/-- The builder `build(entries)`: the full `graph.json` generation of
`sitemap-to-mermaid.ts` on a raw entry list. -/
def buildGraph (cfg : Config) (raw : List Entry) : Graph :=
  let entries := entriesOf cfg.exclude raw
  let siteHost := siteHostOf entries
  let keys := groupKeys cfg.groupDepth entries
  let st := stepEntries cfg siteHost entries
    (stepHosts (assetHostsOf siteHost entries)
      (stepDates (datesOf entries)
        (stepCats (categoriesOf entries)
          (stepTypes keys
            (stepSections keys
              (stepSite siteHost { nodes := [], edges := [] }))))))
  { nodes := st.nodes, edges := st.edges }

/-- One step of `assetsMap[e.loc] = e.images`: replace the first binding of
the key, else append (JS object key order and update semantics). -/
def upsert : List (String × List String) → String → List String → List (String × List String)
  | [], k, v => [(k, v)]
  | (k', v') :: rest, k, v =>
    if k' == k then (k', v) :: rest else (k', v') :: upsert rest k v

/-- The `assetsMap` record written to `assets.json`. -/
def assetsMap (entries : List Entry) : List (String × List String) :=
  entries.foldl (fun m e => upsert m e.loc e.images) []

/-! ### Subgraph extractor (`bfsUndirectedWithDepth` of the viewer) -/

/-- JavaScript `\s` on the characters occurring in this development (space,
tab, line and form feeds, carriage return, vertical tab, NBSP and the
Unicode space separators the regex class names). -/
def isWs (c : Char) : Bool :=
  c == ' ' || c == '\t' || c == '\n' || c == '\r'
    || c.toNat == 11 || c.toNat == 12 || c.toNat == 160 || c.toNat == 5760
    || (8192 ≤ c.toNat && c.toNat ≤ 8202)
    || c.toNat == 8232 || c.toNat == 8233 || c.toNat == 8239
    || c.toNat == 8287 || c.toNat == 12288 || c.toNat == 65279

/-- Case-insensitive match of a lowercase pattern followed by one whitespace
character, at the head of the label. -/
def placeholderStart (p : List Char) (l : List Char) : Bool :=
  match p, l with
  | [], c :: _ => isWs c
  | [], [] => false
  | pc :: ps, c :: cs => pc == c.toLower && placeholderStart ps cs
  | _ :: _, [] => false

/-- The regex `PLACEHOLDER_LABEL_RE = /^(type:\s|date:\s|asset host:\s|category:\s)/i`,
the label test behind `isPlaceholderNode` in the viewer. -/
def isPlaceholderLabel (label : String) : Bool :=
  placeholderStart "type:".data label.data
    || placeholderStart "date:".data label.data
    || placeholderStart "asset host:".data label.data
    || placeholderStart "category:".data label.data

/-- The lookup `cy.getElementById(id)`: the first node carrying the id. -/
def lookupNode (g : Graph) (i : String) : Option NodeData :=
  g.nodes.find? (fun n => n.id == i)

/-- The node exists and its label is not a placeholder label (the combined
emptiness and `isPlaceholderNode` guard of the BFS). -/
def okNode (g : Graph) (i : String) : Bool :=
  match lookupNode g i with
  | some n => !(isPlaceholderLabel n.label)
  | none => false

/-- The kind of the node found at an id, if any. -/
def kindOfId (g : Graph) (i : String) : Option NodeKind :=
  (lookupNode g i).map NodeData.kind

/-- The `keep` set and `depthMap` of the extraction, in insertion order. -/
structure BfsState where
  keep : List String
  depth : List (String × Nat)
  deriving DecidableEq, Repr

/-- The read `depthMap.get(id) ?? 0`. -/
def dGet (m : List (String × Nat)) (i : String) : Nat :=
  (List.lookup i m).getD 0

/-- The neighbour reached through an edge from the expanding node:
`const otherId = (s === id) ? t : s`. -/
def otherOf (e : EdgeData) (id : String) : String :=
  if e.source == id then e.target else e.source

/-- The edge callback of `n.connectedEdges().forEach(...)`: skips edges not
incident to the expanding node, missing or placeholder neighbours, the
`site` neighbour of a `section` root, and sibling sections; admits a fresh
neighbour into `keep`, `depthMap` and the next frontier. -/
def stepEdge (g : Graph) (rootId rootKind : String) (id thisKind : String)
    (acc : BfsState × List String) (e : EdgeData) : BfsState × List String :=
  if e.source == id || e.target == id then
    match lookupNode g (otherOf e id) with
    | none => acc
    | some other =>
      if isPlaceholderLabel other.label then acc
      else if rootKind == "section" && kindStr other.kind == "site" then acc
      else if thisKind == "section" && kindStr other.kind == "section"
          && otherOf e id != rootId then acc
      else if acc.1.keep.contains (otherOf e id) then acc
      else ({ keep := acc.1.keep ++ [otherOf e id]
            , depth := acc.1.depth ++ [(otherOf e id, dGet acc.1.depth id + 1)] }
           , acc.2 ++ [otherOf e id])
  else acc

/-- The body of `for (const id of frontier)`: a missing or placeholder node
is not expanded; otherwise its connected edges are walked in edge order. -/
def stepNode (g : Graph) (rootId rootKind : String)
    (acc : BfsState × List String) (id : String) : BfsState × List String :=
  match lookupNode g id with
  | none => acc
  | some n =>
    if isPlaceholderLabel n.label then acc
    else g.edges.foldl (stepEdge g rootId rootKind id (kindStr n.kind)) acc

/-- The `for (let d = 0; d < maxDepth; d++)` rounds.  The early `break` on an
empty frontier is behaviourally the identity, since a round over an empty
frontier changes nothing. -/
def bfsRounds (g : Graph) (rootId rootKind : String) : Nat → BfsState → List String → BfsState
  | 0, st, _ => st
  | f + 1, st, frontier =>
    bfsRounds g rootId rootKind f
      (frontier.foldl (stepNode g rootId rootKind) (st, [])).1
      (frontier.foldl (stepNode g rootId rootKind) (st, [])).2

/-- The function `bfsUndirectedWithDepth(rootId, maxDepth)` from the viewer: the root is
seeded at depth 0, its kind read through `getElementById` (empty string when
the id is unknown), then `maxDepth` BFS rounds run. -/
def extract (g : Graph) (rootId : String) (maxDepth : Nat) : BfsState :=
  bfsRounds g rootId (((lookupNode g rootId).map (fun n => kindStr n.kind)).getD "")
    maxDepth { keep := [rootId], depth := [(rootId, 0)] } [rootId]

/-! ### Path predicates used to state the BFS depth property -/

/-- The node at the id exists and its kind is not one of the synthetic
grouping kinds (`category`, `date`, `asset_host`, `type`).  This is the
placeholder notion of the specification, phrased on kinds. -/
def okNodeKind (g : Graph) (i : String) : Bool :=
  match lookupNode g i with
  | some n => !(n.kind == .cat || n.kind == .date || n.kind == .assetHost || n.kind == .ty)
  | none => false

/-- There is an undirected path of exactly `k` edges of `g` from `a` to `b`
every node of which satisfies `ok`. -/
def pathOkBy (g : Graph) (ok : Graph → String → Bool) (b : String) : Nat → String → Bool
  | 0, a => a == b && ok g a
  | k + 1, a =>
    ok g a && g.edges.any (fun e =>
      (e.source == a && pathOkBy g ok b k e.target)
        || (e.target == a && pathOkBy g ok b k e.source))

/-- Path of `k` hops whose nodes all avoid placeholder labels (the code's
placeholder notion). -/
def pathOkLabel (g : Graph) (k : Nat) (a b : String) : Bool :=
  pathOkBy g okNode b k a

/-- Path of `k` hops whose nodes all avoid placeholder kinds (the claim's
placeholder notion). -/
def pathOkKind (g : Graph) (k : Nat) (a b : String) : Bool :=
  pathOkBy g okNodeKind b k a

/-! ### Invariant definitions -/

/-- The per-kind id law of the builder: every node's id is the documented
pure function of its kind and its semantic key (recoverable from the node's
label or url). -/
def NodeWf (n : NodeData) : Prop :=
  (n.kind = .site → n.id = "site") ∧
  (n.kind = .sec → n.id = "sec_" ++ safeId n.label) ∧
  (n.kind = .page → ∃ u, n.url = some u ∧ n.id = safeId u) ∧
  (n.kind = .ty → ∃ k, n.label = "type: " ++ k ∧ n.id = "type_" ++ safeId k) ∧
  (n.kind = .cat → ∃ k, n.label = "category: " ++ k ∧ n.id = "cat_" ++ safeId k) ∧
  (n.kind = .date → ∃ k, n.label = "date: " ++ k ∧ n.id = "date_" ++ safeId k) ∧
  (n.kind = .assetHost → ∃ k, n.label = "asset host: " ++ k ∧ n.id = "assethost_" ++ safeId k)

/-- The builder-state invariant: the node-id laws, the edge-id law, and
distinctness of node ids. -/
structure StWf (st : BuildState) : Prop where
  nodes_wf : ∀ n ∈ st.nodes, NodeWf n
  edges_wf : ∀ e ∈ st.edges, e.id = mkEdgeId e.kind e.source e.target
  ids_nodup : (st.nodes.map NodeData.id).Nodup

/-- Some node of the state carries the id. -/
def idPresent (i : String) (st : BuildState) : Prop :=
  ∃ n ∈ st.nodes, n.id = i

/-- Strip a prefix from a string, if present. -/
def dropPre (p s : String) : Option String :=
  if p.data.isPrefixOf s.data then some (String.mk (s.data.drop p.data.length)) else none

/-- The semantic key of a node, recovered from its stored fields: the url
for a page, the label (with the grouping prefix stripped) for the grouping
kinds, the label for a section, a constant for the unique site node. -/
def nodeKey (n : NodeData) : Option String :=
  match n.kind with
  | .site => some ""
  | .sec => some n.label
  | .page => n.url
  | .ty => dropPre "type: " n.label
  | .cat => dropPre "category: " n.label
  | .date => dropPre "date: " n.label
  | .assetHost => dropPre "asset host: " n.label
  | .image => none

/-- Two edges agree on `(kind, source, target)`. -/
def tripleEq (a b : EdgeData) : Bool :=
  a.kind == b.kind && a.source == b.source && a.target == b.target

/-- Pairwise distinctness of edge triples over an edge list. -/
def edgeTriplesDistinct : List EdgeData → Bool
  | [] => true
  | e :: rest => rest.all (fun e2 => !tripleEq e e2) && edgeTriplesDistinct rest

/-! ### Concrete instances used by witnesses and counterexamples -/

/-- The single-entry scenario of the specification (§8). -/
def scenarioEntry : Entry :=
  { loc := "https://ex.com/blog/2024/01/liquid-drop/"
  , images := ["https://cdn.ex.com/a.jpg"] }

/-- The graph built from the scenario entry under the default configuration. -/
def gScenario : Graph := buildGraph defaultConfig [scenarioEntry]

/-- The page id of the scenario entry. -/
def pageIdS : String := safeId "https://ex.com/blog/2024/01/liquid-drop/"

/-- The section-node id of the scenario entry's `blog` section. -/
def secIdS : String := "sec_" ++ safeId "blog"

/-- The type-grouping-node id of the `blog` section. -/
def typeIdS : String := "type_" ++ safeId "blog"

/-- The id of the scenario entry's first image node. -/
def imgIdS : String := pageIdS ++ "_img_1"

/-- The asset-host-node id of `cdn.ex.com`. -/
def hostIdS : String := "assethost_" ++ safeId "cdn.ex.com"

/-- A page with two images on the same external host: its build emits two
`related` edges with an identical `(kind, source, target)` triple. -/
def dupImagesEntry : Entry :=
  { loc := "https://ex.com/p/"
  , images := ["https://cdn.ex.com/a.jpg", "https://cdn.ex.com/b.jpg"] }

/-- A canonical URL occurring twice in the raw input. -/
def dupU : String := "https://ex.com/dup/"

/-- Raw input with a duplicated canonical URL carrying different images. -/
def dupRaw2 : List Entry :=
  [ { loc := dupU, images := ["https://cdn.ex.com/a.jpg"] }
  , { loc := dupU, images := ["https://cdn.ex.com/b.jpg"] } ]

/-- The same input with the second occurrence removed. -/
def dupRaw1 : List Entry :=
  [ { loc := dupU, images := ["https://cdn.ex.com/a.jpg"] } ]

/-- An entry whose URL matches the default `/category/` exclude pattern. -/
def catEntry : Entry := { loc := "https://ex.com/category/music/", images := [] }

/-- A graph holding a `category`-kind node whose label does not match the
placeholder label pattern. -/
def gC6 : Graph :=
  { nodes := [ { id := "r", label := "start", kind := NodeKind.page }
             , { id := "c", label := "music", kind := NodeKind.cat } ]
  , edges := [ { id := "e1", source := "r", target := "c", kind := EdgeKind.member } ] }

/-- A graph holding a `date`-kind node whose label does not match the
placeholder label pattern. -/
def gC8 : Graph :=
  { nodes := [ { id := "p0", label := "alpha", kind := NodeKind.page }
             , { id := "d0", label := "beta", kind := NodeKind.date } ]
  , edges := [ { id := "e8", source := "p0", target := "d0", kind := EdgeKind.member } ] }

/-- A second entry used to vary the input list around the scenario entry. -/
def otherEntry : Entry := { loc := "https://ex.com/about/", images := [] }

/-- The scenario page node as found in a two-entry build. -/
def pageNodeIn2 : NodeData :=
  ((buildGraph defaultConfig [otherEntry, scenarioEntry]).nodes.find?
    (fun n => n.id == pageIdS)).getD (pageNodeOf defaultConfig scenarioEntry)

/-- The scenario page node as found in the one-entry build. -/
def pageNodeIn1 : NodeData :=
  (gScenario.nodes.find? (fun n => n.id == pageIdS)).getD
    (pageNodeOf defaultConfig scenarioEntry)

/-- A default edge for total indexing into edge lists. -/
def dummyEdge : EdgeData :=
  { id := "", source := "", target := "", kind := EdgeKind.contains }

/-- The first edge of the duplicate-image build. -/
def firstDupEdge : EdgeData :=
  (buildGraph defaultConfig [dupImagesEntry]).edges.getD 0 dummyEdge

/-! ### Generic association-list and list lemmas -/

/-- A successful lookup survives appending on the right. -/
theorem lookup_append_some {β : Type} {a : String} {l l' : List (String × β)} {v : β}
    (h : List.lookup a l = some v) : List.lookup a (l ++ l') = some v := by
  induction l with
  | nil => simp [List.lookup] at h
  | cons p rest ih =>
    rw [List.cons_append, List.lookup]
    rw [List.lookup] at h
    cases hk : (a == p.1) with
    | true => rw [hk] at h; simpa using h
    | false => rw [hk] at h; exact ih h

/-- A failed lookup defers to the appended tail. -/
theorem lookup_append_none {β : Type} {a : String} {l : List (String × β)}
    (l' : List (String × β)) (h : List.lookup a l = none) :
    List.lookup a (l ++ l') = List.lookup a l' := by
  induction l with
  | nil => simp
  | cons p rest ih =>
    rw [List.cons_append, List.lookup]
    rw [List.lookup] at h
    cases hk : (a == p.1) with
    | true => rw [hk] at h; simp at h
    | false => rw [hk] at h; exact ih h

/-- Lookup over an appended singleton: either the old lookup succeeded, or
the key is the appended one and the value its payload. -/
theorem lookup_append_single_cases {β : Type} {a k : String} {l : List (String × β)}
    {w v : β} (h : List.lookup a (l ++ [(k, w)]) = some v) :
    List.lookup a l = some v ∨ (a = k ∧ v = w) := by
  cases hl : List.lookup a l with
  | some u => rw [lookup_append_some hl] at h; exact Or.inl h
  | none =>
    rw [lookup_append_none _ hl] at h
    rw [List.lookup] at h
    cases hk : (a == k) with
    | true =>
      rw [hk] at h
      simp only [Option.some.injEq] at h
      exact Or.inr ⟨eq_of_beq hk, h.symm⟩
    | false => rw [hk] at h; simp [List.lookup] at h

/-- A successful lookup locates a pair of the list. -/
theorem lookup_mem {β : Type} {a : String} {l : List (String × β)} {v : β}
    (h : List.lookup a l = some v) : (a, v) ∈ l := by
  induction l with
  | nil => simp [List.lookup] at h
  | cons p rest ih =>
    rw [List.lookup] at h
    cases hk : (a == p.1) with
    | true =>
      rw [hk] at h
      simp only [Option.some.injEq] at h
      have ha : a = p.1 := eq_of_beq hk
      have hp : (a, v) = p := by cases p; simp_all
      rw [hp]
      exact List.mem_cons_self _ _
    | false =>
      rw [hk] at h
      exact List.mem_cons_of_mem _ (ih h)

/-- The predicate `List.contains` agrees with membership for strings. -/
theorem strContains_iff {l : List String} {a : String} :
    l.contains a = true ↔ a ∈ l := by
  simp [List.contains]

/-- Appending one edge to a node-clean path of `k` hops yields one of `k + 1`
hops, provided the new endpoint is also clean. -/
theorem pathOkBy_snoc {g : Graph} {ok : Graph → String → Bool} {b c : String}
    (e : EdgeData) (he : e ∈ g.edges)
    (hbc : (e.source = b ∧ e.target = c) ∨ (e.target = b ∧ e.source = c))
    (hc : ok g c = true) :
    ∀ {k : Nat} {a : String}, pathOkBy g ok b k a = true →
      pathOkBy g ok c (k + 1) a = true := by
  intro k
  induction k with
  | zero =>
    intro a hp
    rw [pathOkBy] at hp
    rw [pathOkBy]
    simp only [Bool.and_eq_true, beq_iff_eq] at hp
    obtain ⟨hab, hoka⟩ := hp
    subst hab
    simp only [Bool.and_eq_true, List.any_eq_true, Bool.or_eq_true, beq_iff_eq]
    refine ⟨hoka, e, he, ?_⟩
    rcases hbc with ⟨hs, ht⟩ | ⟨ht, hs⟩
    · exact Or.inl ⟨hs, by rw [pathOkBy, ht]; simp [hc]⟩
    · exact Or.inr ⟨ht, by rw [pathOkBy, hs]; simp [hc]⟩
  | succ k ih =>
    intro a hp
    rw [pathOkBy] at hp
    rw [pathOkBy]
    simp only [Bool.and_eq_true, List.any_eq_true, Bool.or_eq_true] at hp ⊢
    obtain ⟨hoka, e', he', hstep⟩ := hp
    refine ⟨hoka, e', he', ?_⟩
    rcases hstep with ⟨h1, h2⟩ | ⟨h1, h2⟩
    · exact Or.inl ⟨h1, ih h2⟩
    · exact Or.inr ⟨h1, ih h2⟩

/-! ### BFS invariant of the extractor -/

/-- The map `kindStr` is injective. -/
theorem kindStr_inj {k k' : NodeKind} (h : kindStr k = kindStr k') : k = k' := by
  cases k <;> cases k' <;> first | rfl | exact absurd h (by decide)

/-- The invariant of the BFS state between rounds: `c` is the depth of the
current frontier, every kept node has a recorded depth bounded by `c`, every
kept node other than the root exists, is label-clean, avoids the `site` kind
under a `section` root, and is reached by a label-clean path of its recorded
depth. -/
structure BfsInv (g : Graph) (root rootKind : String) (c : Nat)
    (st : BfsState) (frontier : List String) : Prop where
  root_mem : root ∈ st.keep
  root_depth : List.lookup root st.depth = some 0
  keysF : ∀ id, id ∈ st.keep → (List.lookup id st.depth).isSome
  keysB : ∀ id, (List.lookup id st.depth).isSome → id ∈ st.keep
  bound : ∀ id k, List.lookup id st.depth = some k → k ≤ c
  fr_depth : ∀ id, id ∈ frontier → List.lookup id st.depth = some c
  ok : ∀ id, id ∈ st.keep → id ≠ root → okNode g id = true
  nsite : rootKind = "section" → ∀ id, id ∈ st.keep → id ≠ root →
    ∀ n, lookupNode g id = some n → kindStr n.kind ≠ "site"
  path : ∀ id, id ∈ st.keep → id ≠ root →
    ∀ k, List.lookup id st.depth = some k → pathOkLabel g k root id = true

/-- The invariant of the accumulator inside one BFS round at frontier depth
`c`: new admissions carry depth `c + 1` and populate the next frontier. -/
structure MidInv (g : Graph) (root rootKind : String) (c : Nat)
    (frontier : List String) (acc : BfsState × List String) : Prop where
  root_mem : root ∈ acc.1.keep
  root_depth : List.lookup root acc.1.depth = some 0
  keysF : ∀ id, id ∈ acc.1.keep → (List.lookup id acc.1.depth).isSome
  keysB : ∀ id, (List.lookup id acc.1.depth).isSome → id ∈ acc.1.keep
  bound : ∀ id k, List.lookup id acc.1.depth = some k → k ≤ c + 1
  fr_depth : ∀ id, id ∈ frontier → List.lookup id acc.1.depth = some c
  next_depth : ∀ id, id ∈ acc.2 → List.lookup id acc.1.depth = some (c + 1)
  ok : ∀ id, id ∈ acc.1.keep → id ≠ root → okNode g id = true
  nsite : rootKind = "section" → ∀ id, id ∈ acc.1.keep → id ≠ root →
    ∀ n, lookupNode g id = some n → kindStr n.kind ≠ "site"
  path : ∀ id, id ∈ acc.1.keep → id ≠ root →
    ∀ k, List.lookup id acc.1.depth = some k → pathOkLabel g k root id = true

/-- One edge callback preserves the mid-round invariant. -/
theorem stepEdge_inv {g : Graph} {root rootKind : String} {c : Nat}
    {frontier : List String} {acc : BfsState × List String}
    {id thisKind : String} {e : EdgeData} (he : e ∈ g.edges)
    (hfr : id ∈ frontier) (hok : okNode g id = true)
    (h : MidInv g root rootKind c frontier acc) :
    MidInv g root rootKind c frontier (stepEdge g root rootKind id thisKind acc e) := by
  have hidk : id ∈ acc.1.keep := h.keysB id (by rw [h.fr_depth id hfr]; rfl)
  have hpath_id : pathOkLabel g c root id = true := by
    by_cases hir : id = root
    · subst hir
      have hc0 : c = 0 := by
        have := (h.fr_depth id hfr).symm.trans h.root_depth
        simpa using this
      subst hc0
      rw [pathOkLabel, pathOkBy]
      simp [hok]
    · exact h.path id hidk hir c (h.fr_depth id hfr)
  unfold stepEdge
  split
  case isFalse => exact h
  case isTrue hinc =>
    cases hL : lookupNode g (otherOf e id) with
    | none => exact h
    | some other =>
      simp only []
      split
      case isTrue => exact h
      case isFalse hpl =>
        split
        case isTrue => exact h
        case isFalse hsite =>
          split
          case isTrue => exact h
          case isFalse hsib =>
            split
            case isTrue => exact h
            case isFalse hfresh =>
              -- the admission branch
              have hnotmem : otherOf e id ∉ acc.1.keep := fun hm =>
                hfresh (strContains_iff.mpr hm)
              have hnone : List.lookup (otherOf e id) acc.1.depth = none := by
                cases hd : List.lookup (otherOf e id) acc.1.depth with
                | none => rfl
                | some v => exact absurd (h.keysB _ (by rw [hd]; rfl)) hnotmem
              have hdg : dGet acc.1.depth id = c := by
                rw [dGet, h.fr_depth id hfr]; rfl
              have hner : otherOf e id ≠ root := fun hh => hnotmem (hh ▸ h.root_mem)
              have hlookNew : List.lookup (otherOf e id)
                  (acc.1.depth ++ [(otherOf e id, dGet acc.1.depth id + 1)])
                    = some (dGet acc.1.depth id + 1) := by
                rw [lookup_append_none _ hnone, List.lookup]
                simp
              have hokOther : okNode g (otherOf e id) = true := by
                rw [okNode, hL]
                simp only [Bool.not_eq_true']
                exact Bool.not_eq_true _ ▸ (by simpa using hpl)
              have hedge : (e.source = id ∧ e.target = otherOf e id)
                  ∨ (e.target = id ∧ e.source = otherOf e id) := by
                cases hs : (e.source == id) with
                | true =>
                  refine Or.inl ⟨eq_of_beq hs, ?_⟩
                  rw [otherOf]
                  exact (if_pos hs).symm
                | false =>
                  have ht : (e.target == id) = true := by
                    cases htg : (e.target == id) with
                    | true => rfl
                    | false => rw [hs, htg] at hinc; simp at hinc
                  refine Or.inr ⟨eq_of_beq ht, ?_⟩
                  rw [otherOf]
                  exact (if_neg (by simp [hs])).symm
              have hpathNew : pathOkLabel g (c + 1) root (otherOf e id) = true := by
                rw [pathOkLabel]
                exact pathOkBy_snoc e he
                  (by rcases hedge with ⟨h1, h2⟩ | ⟨h1, h2⟩
                      · exact Or.inl ⟨h1, h2⟩
                      · exact Or.inr ⟨h1, h2⟩) hokOther hpath_id
              refine
                { root_mem := List.mem_append_left _ h.root_mem
                , root_depth := lookup_append_some h.root_depth
                , keysF := ?_, keysB := ?_, bound := ?_, fr_depth := ?_
                , next_depth := ?_, ok := ?_, nsite := ?_, path := ?_ }
              · intro i hi
                rcases List.mem_append.mp hi with hi | hi
                · rcases Option.isSome_iff_exists.mp (h.keysF i hi) with ⟨v, hv⟩
                  rw [lookup_append_some hv]; rfl
                · have : i = otherOf e id := by simpa using hi
                  subst this
                  rw [hlookNew]; rfl
              · intro i hi
                rcases Option.isSome_iff_exists.mp hi with ⟨v, hv⟩
                rcases lookup_append_single_cases hv with hv' | ⟨hv', _⟩
                · exact List.mem_append_left _ (h.keysB i (by rw [hv']; rfl))
                · subst hv'
                  exact List.mem_append_right _ (by simp)
              · intro i k hk
                rcases lookup_append_single_cases hk with hk' | ⟨_, hk'⟩
                · exact h.bound i k hk'
                · subst hk'
                  rw [hdg]
              · intro i hi
                exact lookup_append_some (h.fr_depth i hi)
              · intro i hi
                rcases List.mem_append.mp hi with hi | hi
                · exact lookup_append_some (h.next_depth i hi)
                · have : i = otherOf e id := by simpa using hi
                  subst this
                  rw [hlookNew, hdg]
              · intro i hi hir
                rcases List.mem_append.mp hi with hi | hi
                · exact h.ok i hi hir
                · have : i = otherOf e id := by simpa using hi
                  subst this
                  exact hokOther
              · intro hsec i hi hir n hn
                rcases List.mem_append.mp hi with hi | hi
                · exact h.nsite hsec i hi hir n hn
                · have : i = otherOf e id := by simpa using hi
                  subst this
                  rw [hL] at hn
                  injection hn with hn
                  subst hn
                  intro hks
                  rw [hsec] at hsite
                  simp [hks] at hsite
              · intro i hi hir k hk
                rcases List.mem_append.mp hi with hi | hi
                · rcases lookup_append_single_cases hk with hk' | ⟨hi', _⟩
                  · exact h.path i hi hir k hk'
                  · exact absurd (hi' ▸ hi) hnotmem
                · have : i = otherOf e id := by simpa using hi
                  subst this
                  rw [hlookNew] at hk
                  injection hk with hk
                  subst hk
                  rw [hdg]
                  exact hpathNew

/-- One frontier-node expansion preserves the mid-round invariant. -/
theorem stepNode_inv {g : Graph} {root rootKind : String} {c : Nat}
    {frontier : List String} {acc : BfsState × List String} {id : String}
    (hfr : id ∈ frontier) (h : MidInv g root rootKind c frontier acc) :
    MidInv g root rootKind c frontier (stepNode g root rootKind acc id) := by
  unfold stepNode
  cases hL : lookupNode g id with
  | none => exact h
  | some n =>
    simp only []
    split
    case isTrue => exact h
    case isFalse hpl =>
      have hplf : isPlaceholderLabel n.label = false := Bool.eq_false_iff.mpr hpl
      have hok : okNode g id = true := by
        simp [okNode, hL, hplf]
      exact List.foldlRecOn g.edges _ acc h
        (fun acc' hacc' e he => stepEdge_inv he hfr hok hacc')

/-- One BFS round moves the invariant from frontier depth `c` to `c + 1`. -/
theorem round_inv {g : Graph} {root rootKind : String} {c : Nat}
    {st : BfsState} {frontier : List String}
    (h : BfsInv g root rootKind c st frontier) :
    BfsInv g root rootKind (c + 1)
      (frontier.foldl (stepNode g root rootKind) (st, [])).1
      (frontier.foldl (stepNode g root rootKind) (st, [])).2 := by
  have hmid : MidInv g root rootKind c frontier
      (frontier.foldl (stepNode g root rootKind) (st, [])) := by
    refine List.foldlRecOn frontier _ (st, []) ?_
      (fun acc hacc id hid => stepNode_inv hid hacc)
    exact { root_mem := h.root_mem, root_depth := h.root_depth
          , keysF := h.keysF, keysB := h.keysB
          , bound := fun i k hk => Nat.le_succ_of_le (h.bound i k hk)
          , fr_depth := h.fr_depth
          , next_depth := fun i hi => absurd hi (List.not_mem_nil i)
          , ok := h.ok, nsite := h.nsite, path := h.path }
  exact { root_mem := hmid.root_mem, root_depth := hmid.root_depth
        , keysF := hmid.keysF, keysB := hmid.keysB
        , bound := hmid.bound
        , fr_depth := hmid.next_depth
        , ok := hmid.ok, nsite := hmid.nsite, path := hmid.path }

/-- Running `f` BFS rounds carries the invariant to depth `c + f`. -/
theorem rounds_inv {g : Graph} {root rootKind : String} :
    ∀ (f c : Nat) (st : BfsState) (frontier : List String),
      BfsInv g root rootKind c st frontier →
      ∃ fr, BfsInv g root rootKind (c + f)
        (bfsRounds g root rootKind f st frontier) fr := by
  intro f
  induction f with
  | zero =>
    intro c st frontier h
    exact ⟨frontier, by simpa using h⟩
  | succ f ih =>
    intro c st frontier h
    rw [bfsRounds]
    rcases ih (c + 1) _ _ (round_inv h) with ⟨fr, hfr⟩
    refine ⟨fr, ?_⟩
    rw [show c + (f + 1) = c + 1 + f by omega]
    exact hfr

/-- The invariant established by `extract`: the string passed as `rootKind`
is the one the viewer computes from `getElementById(rootId)`. -/
theorem extract_inv (g : Graph) (rootId : String) (d : Nat) :
    ∃ fr, BfsInv g rootId
      (((lookupNode g rootId).map (fun n => kindStr n.kind)).getD "") d
      (extract g rootId d) fr := by
  have h0 : BfsInv g rootId
      (((lookupNode g rootId).map (fun n => kindStr n.kind)).getD "") 0
      { keep := [rootId], depth := [(rootId, 0)] } [rootId] := by
    refine { root_mem := by simp, root_depth := by simp [List.lookup]
           , keysF := ?_, keysB := ?_, bound := ?_
           , fr_depth := ?_, ok := ?_, nsite := ?_, path := ?_ }
    · intro i hi
      have : i = rootId := by simpa using hi
      subst this
      simp [List.lookup]
    · intro i hi
      rw [List.lookup] at hi
      cases hk : (i == rootId) with
      | true => simpa using eq_of_beq hk
      | false => rw [hk] at hi; simp [List.lookup] at hi
    · intro i k hk
      rw [List.lookup] at hk
      cases hik : (i == rootId) with
      | true => rw [hik] at hk; simp at hk; omega
      | false => rw [hik] at hk; simp [List.lookup] at hk
    · intro i hi
      have : i = rootId := by simpa using hi
      subst this
      simp [List.lookup]
    · intro i hi hir
      exact absurd (by simpa using hi) hir
    · intro _ i hi hir
      exact absurd (by simpa using hi) hir
    · intro i hi hir
      exact absurd (by simpa using hi) hir
  rcases rounds_inv d 0 _ _ h0 with ⟨fr, hfr⟩
  exact ⟨fr, by simpa using hfr⟩

/-- Running `bfsRounds` over an empty frontier is the identity. -/
theorem bfsRounds_nil (g : Graph) (rootId rootKind : String) :
    ∀ (f : Nat) (st : BfsState), bfsRounds g rootId rootKind f st [] = st := by
  intro f
  induction f with
  | zero => intro st; rfl
  | succ f ih => intro st; rw [bfsRounds]; simpa using ih st

/-! ### Builder invariants -/

/-- The function `addNode` preserves the invariant when the added node satisfies the law. -/
theorem stWf_addNode {st : BuildState} {d : NodeData} (h : StWf st) (hd : NodeWf d) :
    StWf (addNode st d) := by
  unfold addNode
  split
  case isTrue => exact h
  case isFalse hany =>
    refine { nodes_wf := ?_, edges_wf := h.edges_wf, ids_nodup := ?_ }
    · intro n hn
      rcases List.mem_append.mp hn with hn | hn
      · exact h.nodes_wf n hn
      · have : n = d := by simpa using hn
        subst this
        exact hd
    · rw [List.map_append]
      rw [List.nodup_append]
      refine ⟨h.ids_nodup, by simp, ?_⟩
      intro a ha hb
      have hab : a = d.id := by simpa using hb
      subst hab
      rcases List.mem_map.mp ha with ⟨n, hn, hid⟩
      exact hany (List.any_eq_true.mpr ⟨n, hn, by simp [hid]⟩)

/-- The function `addEdge` preserves the invariant: the pushed edge carries the id law by
construction. -/
theorem stWf_addEdge {st : BuildState} (h : StWf st) (s t : String) (k : EdgeKind) :
    StWf (addEdge st s t k) := by
  refine { nodes_wf := h.nodes_wf, ids_nodup := h.ids_nodup, edges_wf := ?_ }
  intro e he
  rcases List.mem_append.mp he with he | he
  · exact h.edges_wf e he
  · have : e = { id := mkEdgeId k s t, source := s, target := t, kind := k } := by
      simpa using he
    subst this
    rfl

/-- The image node satisfies the id law (no clause applies to kind `image`). -/
theorem nodeWf_imageNodeOf (pageId secKey : String) (p : Nat × String) :
    NodeWf (imageNodeOf pageId secKey p) := by
  unfold NodeWf imageNodeOf
  refine ⟨?_, ?_, ?_, ?_, ?_, ?_, ?_⟩ <;> (intro hk; simp at hk)

/-- The page node satisfies the id law. -/
theorem nodeWf_pageNodeOf (cfg : Config) (e : Entry) : NodeWf (pageNodeOf cfg e) := by
  unfold NodeWf pageNodeOf
  refine ⟨?_, ?_, fun _ => ⟨e.loc, rfl, rfl⟩, ?_, ?_, ?_, ?_⟩
    <;> (intro hk; simp at hk)

/-- The site node satisfies the id law. -/
theorem nodeWf_siteNode (host : String) :
    NodeWf { id := "site", label := host, kind := .site
           , url := some ("https://" ++ host) } := by
  unfold NodeWf
  refine ⟨fun _ => rfl, ?_, ?_, ?_, ?_, ?_, ?_⟩ <;> (intro hk; simp at hk)

/-- A section node satisfies the id law. -/
theorem nodeWf_secNode (key : String) :
    NodeWf { id := "sec_" ++ safeId key, label := key, kind := .sec } := by
  unfold NodeWf
  refine ⟨?_, fun _ => rfl, ?_, ?_, ?_, ?_, ?_⟩ <;> (intro hk; simp at hk)

/-- A type grouping node satisfies the id law. -/
theorem nodeWf_typeNode (key : String) :
    NodeWf { id := "type_" ++ safeId key, label := "type: " ++ key, kind := .ty } := by
  unfold NodeWf
  refine ⟨?_, ?_, ?_, fun _ => ⟨key, rfl, rfl⟩, ?_, ?_, ?_⟩
    <;> (intro hk; simp at hk)

/-- A category grouping node satisfies the id law. -/
theorem nodeWf_catNode (c : String) :
    NodeWf { id := "cat_" ++ safeId c, label := "category: " ++ c, kind := .cat } := by
  unfold NodeWf
  refine ⟨?_, ?_, ?_, ?_, fun _ => ⟨c, rfl, rfl⟩, ?_, ?_⟩
    <;> (intro hk; simp at hk)

/-- A date grouping node satisfies the id law. -/
theorem nodeWf_dateNode (dk : String) :
    NodeWf { id := "date_" ++ safeId dk, label := "date: " ++ dk, kind := .date } := by
  unfold NodeWf
  refine ⟨?_, ?_, ?_, ?_, ?_, fun _ => ⟨dk, rfl, rfl⟩, ?_⟩
    <;> (intro hk; simp at hk)

/-- An asset-host grouping node satisfies the id law. -/
theorem nodeWf_hostNode (hk : String) :
    NodeWf { id := "assethost_" ++ safeId hk, label := "asset host: " ++ hk
           , kind := .assetHost } := by
  unfold NodeWf
  refine ⟨?_, ?_, ?_, ?_, ?_, ?_, fun _ => ⟨hk, rfl, rfl⟩⟩
    <;> (intro h; simp at h)

/-- The hostEdgeStep of the image loop preserves the invariant. -/
theorem stWf_hostEdgeStep {st : BuildState} (h : StWf st) (a b c : String) :
    StWf (hostEdgeStep a b c st) := by
  unfold hostEdgeStep
  cases parseUrl c with
  | none => exact h
  | some up =>
    simp only []
    split
    · exact stWf_addEdge h _ _ _
    · exact h

/-- The image loop body preserves the invariant. -/
theorem stWf_processImage {st : BuildState} (h : StWf st) (a b c : String) (p : Nat × String) :
    StWf (processImage a b c st p) :=
  stWf_hostEdgeStep
    (stWf_addEdge (stWf_addNode h (nodeWf_imageNodeOf b c p)) _ _ _) _ _ _

/-- The conditional category edge preserves the invariant. -/
theorem stWf_catEdgeStep {st : BuildState} (h : StWf st) (md : PageMetadata) (pageId : String) :
    StWf (catEdgeStep md pageId st) := by
  unfold catEdgeStep
  cases md.category with
  | none => exact h
  | some c => exact stWf_addEdge h _ _ _

/-- The conditional date edge preserves the invariant. -/
theorem stWf_dateEdgeStep {st : BuildState} (h : StWf st) (md : PageMetadata) (pageId : String) :
    StWf (dateEdgeStep md pageId st) := by
  unfold dateEdgeStep
  cases md.dateYear with
  | none => exact h
  | some y =>
    cases md.dateMonth with
    | none => exact h
    | some m => exact stWf_addEdge h _ _ _

/-- The per-entry body preserves the invariant. -/
theorem stWf_processEntry {st : BuildState} (cfg : Config) (host : String) (e : Entry)
    (h : StWf st) : StWf (processEntry cfg host st e) := by
  unfold processEntry
  refine List.foldlRecOn _ _ _ ?_ (fun _ h' p _ => stWf_processImage h' _ _ _ p)
  exact stWf_dateEdgeStep (stWf_catEdgeStep (stWf_addEdge (stWf_addEdge
    (stWf_addNode h (nodeWf_pageNodeOf cfg e)) _ _ _) _ _ _) _ _) _ _

/-- Step 5 preserves the invariant. -/
theorem stWf_stepEntries (cfg : Config) (host : String) (entries : List Entry)
    {st : BuildState} (h : StWf st) : StWf (stepEntries cfg host entries st) :=
  List.foldlRecOn entries _ st h (fun _ h' e _ => stWf_processEntry cfg host e h')

/-- Step 1 preserves the invariant. -/
theorem stWf_stepSite (host : String) {st : BuildState} (h : StWf st) :
    StWf (stepSite host st) :=
  stWf_addNode h (nodeWf_siteNode host)

/-- Step 2 preserves the invariant. -/
theorem stWf_stepSections (keys : List String) {st : BuildState} (h : StWf st) :
    StWf (stepSections keys st) :=
  List.foldlRecOn keys _ st h (fun _ h' key _ =>
    stWf_addEdge (stWf_addNode h' (nodeWf_secNode key)) _ _ _)

/-- Step 4a preserves the invariant. -/
theorem stWf_stepTypes (keys : List String) {st : BuildState} (h : StWf st) :
    StWf (stepTypes keys st) :=
  List.foldlRecOn keys _ st h (fun _ h' key _ => stWf_addNode h' (nodeWf_typeNode key))

/-- Step 4b preserves the invariant. -/
theorem stWf_stepCats (cats : List String) {st : BuildState} (h : StWf st) :
    StWf (stepCats cats st) :=
  List.foldlRecOn cats _ st h (fun _ h' c _ => stWf_addNode h' (nodeWf_catNode c))

/-- Step 4c preserves the invariant. -/
theorem stWf_stepDates (dates : List String) {st : BuildState} (h : StWf st) :
    StWf (stepDates dates st) :=
  List.foldlRecOn dates _ st h (fun _ h' dk _ => stWf_addNode h' (nodeWf_dateNode dk))

/-- Step 4d preserves the invariant. -/
theorem stWf_stepHosts (hosts : List String) {st : BuildState} (h : StWf st) :
    StWf (stepHosts hosts st) :=
  List.foldlRecOn hosts _ st h (fun _ h' hkey _ => stWf_addNode h' (nodeWf_hostNode hkey))

/-- The full builder satisfies the invariant. -/
theorem buildGraph_stWf (cfg : Config) (raw : List Entry) :
    StWf ⟨(buildGraph cfg raw).nodes, (buildGraph cfg raw).edges⟩ := by
  have h0 : StWf { nodes := [], edges := [] } :=
    { nodes_wf := by simp, edges_wf := by simp, ids_nodup := by simp }
  exact stWf_stepEntries _ _ _
    (stWf_stepHosts _ (stWf_stepDates _ (stWf_stepCats _ (stWf_stepTypes _
      (stWf_stepSections _ (stWf_stepSite _ h0))))))

/-! ### Presence of surviving entries in the built graph -/

/-- The function `addNode` never removes an id. -/
theorem idPresent_addNode {i : String} {st : BuildState} (d : NodeData)
    (h : idPresent i st) : idPresent i (addNode st d) := by
  unfold addNode
  split
  · exact h
  · rcases h with ⟨n, hn, hid⟩
    exact ⟨n, List.mem_append_left _ hn, hid⟩

/-- After `addNode(d)` a node with `d`'s id is present — either it was
already there (the dedup branch) or it was just pushed. -/
theorem idPresent_addNode_self (st : BuildState) (d : NodeData) :
    idPresent d.id (addNode st d) := by
  unfold addNode
  split
  case isTrue hany =>
    rcases List.any_eq_true.mp hany with ⟨n, hn, hb⟩
    exact ⟨n, hn, eq_of_beq hb⟩
  case isFalse =>
    exact ⟨d, List.mem_append_right _ (by simp), rfl⟩

/-- The function `addEdge` keeps nodes unchanged. -/
theorem idPresent_addEdge {i : String} {st : BuildState} (s t : String) (k : EdgeKind)
    (h : idPresent i st) : idPresent i (addEdge st s t k) := h

/-- The function `hostEdgeStep` keeps nodes unchanged. -/
theorem idPresent_hostEdgeStep {i : String} {st : BuildState} (a b c : String)
    (h : idPresent i st) : idPresent i (hostEdgeStep a b c st) := by
  unfold hostEdgeStep
  cases parseUrl c with
  | none => exact h
  | some up =>
    simp only []
    split
    · exact h
    · exact h

/-- The image loop body never removes an id. -/
theorem idPresent_processImage {i : String} {st : BuildState} (a b c : String)
    (p : Nat × String) (h : idPresent i st) : idPresent i (processImage a b c st p) :=
  idPresent_hostEdgeStep _ _ _
    (idPresent_addEdge _ _ _ (idPresent_addNode _ h))

/-- The category edge keeps nodes unchanged. -/
theorem idPresent_catEdgeStep {i : String} {st : BuildState} (md : PageMetadata)
    (pageId : String) (h : idPresent i st) : idPresent i (catEdgeStep md pageId st) := by
  unfold catEdgeStep
  cases md.category with
  | none => exact h
  | some c => exact h

/-- The date edge keeps nodes unchanged. -/
theorem idPresent_dateEdgeStep {i : String} {st : BuildState} (md : PageMetadata)
    (pageId : String) (h : idPresent i st) : idPresent i (dateEdgeStep md pageId st) := by
  unfold dateEdgeStep
  cases md.dateYear with
  | none => exact h
  | some y =>
    cases md.dateMonth with
    | none => exact h
    | some m => exact h

/-- The per-entry body never removes an id. -/
theorem idPresent_processEntry {i : String} {st : BuildState} (cfg : Config)
    (host : String) (e : Entry) (h : idPresent i st) :
    idPresent i (processEntry cfg host st e) := by
  unfold processEntry
  refine List.foldlRecOn _ _ _ ?_ (fun _ h' p _ => idPresent_processImage _ _ _ p h')
  exact idPresent_dateEdgeStep _ _ (idPresent_catEdgeStep _ _ (idPresent_addEdge _ _ _
    (idPresent_addEdge _ _ _ (idPresent_addNode _ h))))

/-- The per-entry body establishes the entry's page id. -/
theorem idPresent_processEntry_self (cfg : Config) (host : String)
    (st : BuildState) (e : Entry) : idPresent (safeId e.loc) (processEntry cfg host st e) := by
  unfold processEntry
  refine List.foldlRecOn _ _ _ ?_ (fun _ h' p _ => idPresent_processImage _ _ _ p h')
  exact idPresent_dateEdgeStep _ _ (idPresent_catEdgeStep _ _ (idPresent_addEdge _ _ _
    (idPresent_addEdge _ _ _ (idPresent_addNode_self st (pageNodeOf cfg e)))))

/-- Every processed entry's page id is present after step 5. -/
theorem idPresent_stepEntries (cfg : Config) (host : String) :
    ∀ (entries : List Entry) (st : BuildState) (e : Entry), e ∈ entries →
      idPresent (safeId e.loc) (stepEntries cfg host entries st) := by
  intro entries
  induction entries with
  | nil => intro st e he; cases he
  | cons a rest ih =>
    intro st e he
    unfold stepEntries
    rw [List.foldl_cons]
    rcases List.mem_cons.mp he with he | he
    · subst he
      refine List.foldlRecOn rest _ _ (idPresent_processEntry_self cfg host st e)
        (fun _ h' b _ => idPresent_processEntry cfg host b h')
    · exact ih (processEntry cfg host st a) e he

/-- A surviving raw entry contributes a node carrying its page id to the
built graph. -/
theorem buildGraph_presence (cfg : Config) (raw : List Entry) (e : Entry)
    (hmem : e ∈ raw) (hloc : e.loc ≠ "")
    (hexc : isExcludedUrl cfg.exclude e.loc = false) :
    ∃ n ∈ (buildGraph cfg raw).nodes, n.id = safeId e.loc := by
  have hin : e ∈ entriesOf cfg.exclude raw := by
    unfold entriesOf
    rw [List.mem_filter]
    refine ⟨List.mem_filter.mpr ⟨hmem, ?_⟩, ?_⟩
    · exact bne_iff_ne.mpr hloc
    · rw [hexc]
      rfl
  exact idPresent_stepEntries cfg _ (entriesOf cfg.exclude raw) _ e hin

/-! ### The assets map records the last occurrence -/

/-- Lookup after an upsert: the upserted key maps to the new value, every
other key is untouched. -/
theorem lookup_upsert (m : List (String × List String)) (k u : String) (v : List String) :
    List.lookup u (upsert m k v) = if u = k then some v else List.lookup u m := by
  induction m with
  | nil =>
    rw [upsert, List.lookup]
    by_cases hu : u = k
    · simp [hu]
    · have : (u == k) = false := beq_false_of_ne hu
      simp [this, hu, List.lookup]
  | cons p rest ih =>
    rcases p with ⟨k', v'⟩
    rw [upsert]
    by_cases hk : k' = k
    · subst hk
      simp only [beq_self_eq_true, if_true]
      rw [List.lookup, List.lookup]
      by_cases hu : u = k'
      · have : (u == k') = true := beq_iff_eq.mpr hu
        simp [this, hu]
      · have : (u == k') = false := beq_false_of_ne hu
        simp [this, hu]
    · have hkb : (k' == k) = false := beq_false_of_ne hk
      simp only [hkb, Bool.false_eq_true, if_false]
      rw [List.lookup, List.lookup]
      by_cases hu : u = k'
      · have huk : ¬u = k := fun hh => hk (hu.symm.trans hh)
        have : (u == k') = true := beq_iff_eq.mpr hu
        simp [this, huk]
      · have : (u == k') = false := beq_false_of_ne hu
        simp only [this]
        exact ih

/-- The value `assets.json` records for a URL is the image list of the LAST
entry with that canonical URL (later occurrences overwrite earlier ones). -/
theorem assetsMap_last : ∀ (entries : List Entry) (u : String),
    List.lookup u (assetsMap entries)
      = (entries.reverse.find? (fun e => e.loc == u)).map Entry.images := by
  intro entries
  induction entries using List.reverseRecOn with
  | nil => intro u; rfl
  | append_singleton es e ih =>
    intro u
    unfold assetsMap
    rw [List.foldl_append, List.foldl_cons, List.foldl_nil]
    have : List.foldl (fun m e => upsert m e.loc e.images) [] es = assetsMap es := rfl
    rw [this, lookup_upsert, List.reverse_append]
    simp only [List.reverse_singleton, List.singleton_append, List.find?]
    by_cases hu : u = e.loc
    · have : (e.loc == u) = true := beq_iff_eq.mpr hu.symm
      simp [this, hu]
    · have : (e.loc == u) = false := beq_false_of_ne (fun hh => hu hh.symm)
      simp only [this, if_neg hu]
      exact ih u

/-! ### Key recovery -/

/-- A list is a Boolean prefix of itself followed by anything. -/
theorem isPrefixOf_append_self (l t : List Char) : l.isPrefixOf (l ++ t) = true := by
  induction l with
  | nil => simp [List.isPrefixOf]
  | cons c cs ih => simp [List.isPrefixOf, ih]

/-- Stripping a concatenated prefix recovers the suffix. -/
theorem dropPre_append (p s : String) : dropPre p (p ++ s) = some s := by
  unfold dropPre
  have hd : (p ++ s).data = p.data ++ s.data := rfl
  rw [hd]
  rw [if_pos (isPrefixOf_append_self p.data s.data)]
  congr 1
  rw [List.drop_left]

/-! ### Claim theorems -/

/-- C1, counterexample: on the single entry `https://ex.com/p/` with two
images hosted on the same external host `cdn.ex.com`, the built edge list
contains two distinct entries with the identical triple
`(related, assethost, page)` — edges are NOT unique per
`(kind, source, target)`. -/
theorem c1_edge_triples_not_distinct :
    edgeTriplesDistinct (buildGraph defaultConfig [dupImagesEntry]).edges = false := by
  decide

/-- C1 (amended): the edge id is a pure function of the triple — every edge
of every built graph has `id = e_<kind>_<hash8 source>_<hash8 target>` — but
at-most-one-edge-per-triple does not hold: `addEdge` pushes unconditionally,
so duplicate edges with an identical triple (and identical id) can occur. -/
theorem c1_edge_id_function_of_triple (cfg : Config) (raw : List Entry) (e : EdgeData)
    (he : e ∈ (buildGraph cfg raw).edges) :
    e.id = mkEdgeId e.kind e.source e.target :=
  (buildGraph_stWf cfg raw).edges_wf e he

/-- Witness for C1 at the first edge of the duplicate-image build. -/
theorem c1_edge_id_function_of_triple_witness :
    firstDupEdge.id = mkEdgeId firstDupEdge.kind firstDupEdge.source firstDupEdge.target :=
  c1_edge_id_function_of_triple defaultConfig [dupImagesEntry] firstDupEdge (by decide)

/-- C2, counterexample: the build of the scenario entry contains no node of
kind `date` (the date regex requires a `/YYYY/MM/DD/` segment, and the URL
has only `/YYYY/MM/slug/`) and no node labelled `2024` (the semantic graph
emits no path-segment nodes at all). -/
theorem c2_no_date_node_no_path_segments :
    (∀ n ∈ gScenario.nodes, n.kind ≠ NodeKind.date) ∧
    (∀ n ∈ gScenario.nodes, n.label ≠ "2024") := by
  decide

/-- C2 (amended): the scenario build contains the site node labelled
`ex.com`; a section node labelled `blog` with a `contains` edge from the
site; a page node titled `liquid drop` with a `page` edge from the section;
a `type: blog` grouping node with a `member` edge to the page; an image node
with an `asset` edge from the page; and an `asset host: cdn.ex.com` grouping
node with a `related` edge to the page.  No date node and no path-segment
nodes are produced. -/
theorem c2_scenario_build_contents :
    (∃ n ∈ gScenario.nodes, n.kind = NodeKind.site ∧ n.label = "ex.com") ∧
    (∃ n ∈ gScenario.nodes, n.kind = NodeKind.sec ∧ n.label = "blog" ∧ n.id = secIdS) ∧
    (∃ e ∈ gScenario.edges, e.kind = EdgeKind.contains ∧ e.source = "site" ∧ e.target = secIdS) ∧
    (∃ n ∈ gScenario.nodes, n.kind = NodeKind.page ∧ n.label = "liquid drop" ∧ n.id = pageIdS) ∧
    (∃ e ∈ gScenario.edges, e.kind = EdgeKind.page ∧ e.source = secIdS ∧ e.target = pageIdS) ∧
    (∃ n ∈ gScenario.nodes, n.kind = NodeKind.ty ∧ n.label = "type: blog" ∧ n.id = typeIdS) ∧
    (∃ e ∈ gScenario.edges, e.kind = EdgeKind.member ∧ e.source = typeIdS ∧ e.target = pageIdS) ∧
    (∃ n ∈ gScenario.nodes, n.kind = NodeKind.image ∧ n.id = imgIdS
      ∧ n.url = some "https://cdn.ex.com/a.jpg") ∧
    (∃ e ∈ gScenario.edges, e.kind = EdgeKind.asset ∧ e.source = pageIdS ∧ e.target = imgIdS) ∧
    (∃ n ∈ gScenario.nodes, n.kind = NodeKind.assetHost
      ∧ n.label = "asset host: cdn.ex.com" ∧ n.id = hostIdS) ∧
    (∃ e ∈ gScenario.edges, e.kind = EdgeKind.related ∧ e.source = hostIdS ∧ e.target = pageIdS) ∧
    (∀ n ∈ gScenario.nodes, n.kind ≠ NodeKind.date) := by
  decide

/-- C3, counterexample: under the default exclude list
`["/category/", "/product-category/"]` of the generator's final variant, the
entry `https://ex.com/category/music/` — a non-empty, parseable canonical
URL that is not a duplicate — is dropped: the built graph has only the site
node and no node references the entry's URL. -/
theorem c3_excluded_entry_dropped :
    (catEntry.loc ≠ "") ∧
    ((buildGraph categoryExcludeConfig [catEntry]).nodes.length = 1) ∧
    (∀ n ∈ (buildGraph categoryExcludeConfig [catEntry]).nodes,
      n.url ≠ some catEntry.loc) := by
  decide

/-- C3 (amended): every raw entry whose canonical URL is non-empty and
matches no exclude pattern contributes a node carrying its page id
`safeId(loc)` to the built graph — including entries with unparseable URLs,
which are classified under the group key `(root)`.  Entries matching an
exclude pattern are dropped, and duplicate canonical URLs are not omitted
(each occurrence is processed; only the node list is deduplicated by id). -/
theorem c3_surviving_entries_kept (cfg : Config) (raw : List Entry) (e : Entry)
    (hmem : e ∈ raw) (hloc : e.loc ≠ "")
    (hexc : isExcludedUrl cfg.exclude e.loc = false) :
    ∃ n ∈ (buildGraph cfg raw).nodes, n.id = safeId e.loc :=
  buildGraph_presence cfg raw e hmem hloc hexc

/-- Witness for C3 at an unparseable URL, which is still included. -/
theorem c3_surviving_entries_kept_witness :
    ∃ n ∈ (buildGraph defaultConfig [{ loc := "notaurl", images := [] }]).nodes,
      n.id = safeId "notaurl" :=
  c3_surviving_entries_kept defaultConfig [{ loc := "notaurl", images := [] }]
    { loc := "notaurl", images := [] } (by decide) (by decide) (by decide)

/-- C4, counterexample: with the canonical URL `https://ex.com/dup/`
duplicated, the assets map keeps the SECOND occurrence's image list, and the
built edge list differs from the build with the second occurrence removed —
the Builder does not deduplicate with first occurrence winning. -/
theorem c4_first_occurrence_does_not_win :
    (List.lookup dupU (assetsMap (entriesOf [] dupRaw2))
      = some ["https://cdn.ex.com/b.jpg"]) ∧
    ((buildGraph defaultConfig dupRaw2).edges
      ≠ (buildGraph defaultConfig dupRaw1).edges) := by
  decide

/-- C4 (amended): entries are not deduplicated.  The `assets.json` value for
a URL is the image list of its LAST occurrence, while the node list carries
at most one node per id (so a duplicated page keeps the first occurrence's
node but re-emits its edges). -/
theorem c4_no_dedup_last_assets_unique_node_ids :
    (∀ (entries : List Entry) (u : String),
        List.lookup u (assetsMap entries)
          = (entries.reverse.find? (fun e => e.loc == u)).map Entry.images) ∧
    (∀ (cfg : Config) (raw : List Entry),
        ((buildGraph cfg raw).nodes.map NodeData.id).Nodup) :=
  ⟨assetsMap_last, fun cfg raw => (buildGraph_stWf cfg raw).ids_nodup⟩

/-- C5, counterexample: for the unknown root id `phantom` the extraction
raises nothing and returns a keep set and depth map for the unknown id —
there is no `InvalidRootError` and the extraction is not withheld. -/
theorem c5_unknown_root_returns_result :
    lookupNode gScenario "phantom" = none ∧
    (extract gScenario "phantom" 5).keep = ["phantom"] ∧
    (extract gScenario "phantom" 5).depth = [("phantom", 0)] := by
  decide

/-- C5 (amended): when the root id names no node of the graph, the
extraction raises no error; it returns `keep = {rootId}` with
`depth[rootId] = 0` for every depth bound — the unknown root is seeded and
the BFS expands nothing. -/
theorem c5_unknown_root_keeps_only_root (g : Graph) (root : String) (d : Nat)
    (h : lookupNode g root = none) :
    extract g root d = { keep := [root], depth := [(root, 0)] } := by
  unfold extract
  cases d with
  | zero => rfl
  | succ f =>
    rw [bfsRounds]
    have hstep : List.foldl
        (stepNode g root (((lookupNode g root).map (fun n => kindStr n.kind)).getD ""))
        ({ keep := [root], depth := [(root, 0)] }, ([] : List String)) [root]
        = ({ keep := [root], depth := [(root, 0)] }, ([] : List String)) := by
      rw [List.foldl_cons, List.foldl_nil]
      unfold stepNode
      rw [h]
    rw [hstep]
    exact bfsRounds_nil g root _ f _

/-- Witness for C5 at the scenario graph and the absent id `ghost`. -/
theorem c5_unknown_root_keeps_only_root_witness :
    extract gScenario "ghost" 3 = { keep := ["ghost"], depth := [("ghost", 0)] } :=
  c5_unknown_root_keeps_only_root gScenario "ghost" 3 (by decide)

/-- C6, counterexample: in a graph whose `category`-kind node is labelled
`music`, extraction from the adjacent page admits it — keep contains a node
of a synthetic grouping kind, because the code tests the LABEL pattern
`^(type:|date:|asset host:|category:)\s`, not the kind. -/
theorem c6_placeholder_kind_admitted :
    ("c" ∈ (extract gC6 "r" 1).keep) ∧ kindOfId gC6 "c" = some NodeKind.cat := by
  decide

/-- C6 (amended): placeholder filtering is by label, not kind: every member
of the keep set other than the root exists in the graph and its label does
not match the placeholder pattern (such nodes are neither admitted nor
expanded through); the root itself is kept unconditionally. -/
theorem c6_kept_members_label_clean (g : Graph) (root : String) (d : Nat)
    (id : String) (hmem : id ∈ (extract g root d).keep) (hne : id ≠ root) :
    okNode g id = true := by
  rcases extract_inv g root d with ⟨fr, hinv⟩
  exact hinv.ok id hmem hne

/-- Witness for C6 at the scenario graph: the page admitted from the
section root is label-clean. -/
theorem c6_kept_members_label_clean_witness : okNode gScenario pageIdS = true :=
  c6_kept_members_label_clean gScenario secIdS 1 pageIdS (by decide) (by decide)

/-- C7 (confirmed): when the root's kind is `section`, no id of the keep set
resolves to a node of kind `site`, at any depth bound — the edge toward the
site is never followed. -/
theorem c7_section_root_never_keeps_site (g : Graph) (root : String) (d : Nat)
    (id : String) (hroot : kindOfId g root = some NodeKind.sec)
    (hmem : id ∈ (extract g root d).keep) :
    kindOfId g id ≠ some NodeKind.site := by
  rcases Option.map_eq_some'.mp hroot with ⟨nr, hnr, hknr⟩
  have hrk : ((lookupNode g root).map (fun n => kindStr n.kind)).getD "" = "section" := by
    rw [hnr]
    simp [hknr, kindStr]
  by_cases hir : id = root
  · subst hir
    rw [hroot]
    simp
  · rcases extract_inv g root d with ⟨fr, hinv⟩
    intro hsite
    rcases Option.map_eq_some'.mp hsite with ⟨n, hn, hkn⟩
    exact hinv.nsite hrk id hmem hir n hn (by rw [hkn]; rfl)

/-- Witness for C7 at the scenario graph, section root, depth 2, at the
admitted image node. -/
theorem c7_section_root_never_keeps_site_witness :
    kindOfId gScenario imgIdS ≠ some NodeKind.site :=
  c7_section_root_never_keeps_site gScenario secIdS 2 imgIdS (by decide) (by decide)

/-- C8, counterexample: in a graph whose `date`-kind node is labelled
`beta`, that node is admitted at depth 1, but no undirected path of length 1
from the root using only non-placeholder-KIND nodes reaches it — the node
itself is of a placeholder kind. -/
theorem c8_no_kind_clean_path :
    ("d0" ∈ (extract gC8 "p0" 1).keep) ∧
    (List.lookup "d0" (extract gC8 "p0" 1).depth = some 1) ∧
    (pathOkKind gC8 1 "p0" "d0" = false) := by
  decide

/-- C8 (amended): for every non-root member of the keep set, the recorded
depth exists and is at most the depth bound, the root is recorded at depth
0, and an undirected path of exactly the recorded depth links the root to
the member through nodes that all exist and avoid placeholder LABELS (the
code's placeholder notion). -/
theorem c8_depth_bounded_label_clean_path (g : Graph) (root : String) (d : Nat)
    (id : String) (hmem : id ∈ (extract g root d).keep) (hne : id ≠ root) :
    List.lookup root (extract g root d).depth = some 0 ∧
    (List.lookup id (extract g root d).depth).isSome = true ∧
    dGet (extract g root d).depth id ≤ d ∧
    pathOkLabel g (dGet (extract g root d).depth id) root id = true := by
  rcases extract_inv g root d with ⟨fr, hinv⟩
  have hs := hinv.keysF id hmem
  rcases Option.isSome_iff_exists.mp hs with ⟨k, hk⟩
  refine ⟨hinv.root_depth, hs, ?_, ?_⟩
  · simp only [dGet, hk, Option.getD_some]
    exact hinv.bound id k hk
  · simp only [dGet, hk, Option.getD_some]
    exact hinv.path id hmem hne k hk

/-- Witness for C8 at the scenario graph, section root, depth 2, at the
image node admitted at depth 2. -/
theorem c8_depth_bounded_label_clean_path_witness :
    List.lookup secIdS (extract gScenario secIdS 2).depth = some 0 ∧
    (List.lookup imgIdS (extract gScenario secIdS 2).depth).isSome = true ∧
    dGet (extract gScenario secIdS 2).depth imgIdS ≤ 2 ∧
    pathOkLabel gScenario (dGet (extract gScenario secIdS 2).depth imgIdS)
      secIdS imgIdS = true :=
  c8_depth_bounded_label_clean_path gScenario secIdS 2 imgIdS (by decide) (by decide)

/-- C9 (confirmed): node ids are pure functions of `(kind, semantic key)`
with no dependence on the configuration, the input list, input order or any
global counter: two nodes of the same non-image kind agreeing on their
semantic key, drawn from builds over arbitrary configurations and raw entry
lists, carry the same id.  (`build` itself is a pure function of its input
in this development, so invoking it twice on a fixed list trivially yields
identical node and edge lists.) -/
theorem c9_build_ids_deterministic (cfg₁ cfg₂ : Config) (raw₁ raw₂ : List Entry)
    (n₁ n₂ : NodeData)
    (h₁ : n₁ ∈ (buildGraph cfg₁ raw₁).nodes) (h₂ : n₂ ∈ (buildGraph cfg₂ raw₂).nodes)
    (hk : n₁.kind = n₂.kind) (hni : n₁.kind ≠ NodeKind.image)
    (hkey : nodeKey n₁ = nodeKey n₂) : n₁.id = n₂.id := by
  have w₁ := (buildGraph_stWf cfg₁ raw₁).nodes_wf n₁ h₁
  have w₂ := (buildGraph_stWf cfg₂ raw₂).nodes_wf n₂ h₂
  cases hkind : n₁.kind with
  | image => exact absurd hkind hni
  | site =>
    have hk2 : n₂.kind = .site := hk.symm.trans hkind
    rw [w₁.1 hkind, w₂.1 hk2]
  | sec =>
    have hk2 : n₂.kind = .sec := hk.symm.trans hkind
    simp only [nodeKey, hkind, hk2, Option.some.injEq] at hkey
    rw [w₁.2.1 hkind, w₂.2.1 hk2, hkey]
  | page =>
    have hk2 : n₂.kind = .page := hk.symm.trans hkind
    obtain ⟨u₁, hu₁, hid₁⟩ := w₁.2.2.1 hkind
    obtain ⟨u₂, hu₂, hid₂⟩ := w₂.2.2.1 hk2
    simp only [nodeKey, hkind, hk2, hu₁, hu₂, Option.some.injEq] at hkey
    rw [hid₁, hid₂, hkey]
  | ty =>
    have hk2 : n₂.kind = .ty := hk.symm.trans hkind
    obtain ⟨k₁, hl₁, hid₁⟩ := w₁.2.2.2.1 hkind
    obtain ⟨k₂, hl₂, hid₂⟩ := w₂.2.2.2.1 hk2
    simp only [nodeKey, hkind, hk2, hl₁, hl₂, dropPre_append, Option.some.injEq] at hkey
    rw [hid₁, hid₂, hkey]
  | cat =>
    have hk2 : n₂.kind = .cat := hk.symm.trans hkind
    obtain ⟨k₁, hl₁, hid₁⟩ := w₁.2.2.2.2.1 hkind
    obtain ⟨k₂, hl₂, hid₂⟩ := w₂.2.2.2.2.1 hk2
    simp only [nodeKey, hkind, hk2, hl₁, hl₂, dropPre_append, Option.some.injEq] at hkey
    rw [hid₁, hid₂, hkey]
  | date =>
    have hk2 : n₂.kind = .date := hk.symm.trans hkind
    obtain ⟨k₁, hl₁, hid₁⟩ := w₁.2.2.2.2.2.1 hkind
    obtain ⟨k₂, hl₂, hid₂⟩ := w₂.2.2.2.2.2.1 hk2
    simp only [nodeKey, hkind, hk2, hl₁, hl₂, dropPre_append, Option.some.injEq] at hkey
    rw [hid₁, hid₂, hkey]
  | assetHost =>
    have hk2 : n₂.kind = .assetHost := hk.symm.trans hkind
    obtain ⟨k₁, hl₁, hid₁⟩ := w₁.2.2.2.2.2.2 hkind
    obtain ⟨k₂, hl₂, hid₂⟩ := w₂.2.2.2.2.2.2 hk2
    simp only [nodeKey, hkind, hk2, hl₁, hl₂, dropPre_append, Option.some.injEq] at hkey
    rw [hid₁, hid₂, hkey]

/-- Witness for C9: the scenario page node keeps the same id across a
one-entry and a two-entry build. -/
theorem c9_build_ids_deterministic_witness : pageNodeIn2.id = pageNodeIn1.id :=
  c9_build_ids_deterministic defaultConfig defaultConfig
    [otherEntry, scenarioEntry] [scenarioEntry] pageNodeIn2 pageNodeIn1
    (by decide) (by decide) (by decide) (by decide) (by decide)

end Stldnb
